import Mathlib

/-!
Shallow embedding of the audit engine of `seo-cl-analysis.py`
(single-page SEO audit tool) together with proofs about its behavior.

Modelling conventions:
* A `color_print(status, label, content)` call is modelled as emitting a
  `Finding` record; a function that prints a sequence of findings is
  modelled as returning the list of findings in print order.
* Network I/O (`requests.get` / exceptions) is modelled by passing an
  oracle `probe : String → RequestOutcome`; a `RequestException` raised
  by the library is the `exn` constructor, a received HTTP response is
  `ok`.  Functions that issue network requests additionally return the
  trace of URLs passed to `requests.get`, in call order, so that the
  number and targets of network probes are observable.
* Library helpers from `urllib.parse` / `requests.compat`
  (`urljoin`, `urlparse(...).netloc`) are external collaborators and are
  passed as function parameters `urljoin` and `netloc`.
* Python strings are `String`; `len` is `String.length`; truthiness of a
  string is non-emptiness.
-/

/-- Display status of one audit finding, as passed to `color_print`. -/
inductive Status where
  | GOOD
  | NEUTRAL
  | FAIL
  | SECTION
deriving DecidableEq, Repr

/-- One `color_print(status, label, content)` call. -/
structure Finding where
  status : Status
  label : String
  content : String
deriving DecidableEq, Repr

/-- SEO_TITLE_LIMITS from the source. -/
def SEO_TITLE_LIMITS : Nat × Nat := (50, 60)

/-- SEO_DESC_LIMITS from the source. -/
def SEO_DESC_LIMITS : Nat × Nat := (150, 160)

/-- SEO_H1_LIMIT from the source. -/
def SEO_H1_LIMIT : Nat := 70

/-- Embedding of `evaluate_field_length(content, optimal_range)`:
FAIL on a falsy (empty) string, GOOD when the length lies in the
inclusive range, NEUTRAL otherwise. -/
def evaluate_field_length (content : String) (optimal_range : Nat × Nat) : Status :=
  if content = "" then .FAIL
  else if optimal_range.1 ≤ content.length ∧ content.length ≤ optimal_range.2 then .GOOD
  else .NEUTRAL

/-- Embedding of `print_heading_tags`, applied to the stripped texts of
the H1, H2 and H3 elements of the parsed page in document order.  The
source first reports a missing H1, then evaluates each H1 against
`(1, SEO_H1_LIMIT)` and each H2/H3 against plain non-emptiness, and
finally reports multiple H1 tags when more than one exists. -/
def print_heading_tags (h1s h2s h3s : List String) : List Finding :=
  (if h1s.isEmpty then [⟨.FAIL, "Headings", "No H1 tag found."⟩] else [])
  ++ h1s.map (fun c => ⟨evaluate_field_length c (1, SEO_H1_LIMIT), "H1", c⟩)
  ++ h2s.map (fun c => ⟨if c ≠ "" then .GOOD else .FAIL, "H2", c⟩)
  ++ h3s.map (fun c => ⟨if c ≠ "" then .GOOD else .FAIL, "H3", c⟩)
  ++ (if h1s.length > 1 then [⟨.FAIL, "Headings", "Multiple H1 tags found."⟩] else [])

/-- An HTTP response as seen through the `requests` library; only the
fields the audited control flow inspects are modelled. -/
structure Response where
  status_code : Nat
deriving DecidableEq, Repr

/-- Outcome of one `requests.get` / `requests.head` call: either the
library raises a `RequestException` (DNS failure, connection refused,
timeout, TLS failure, ...) or it delivers a terminal `Response`. -/
inductive RequestOutcome where
  | exn (msg : String)
  | ok (r : Response)
deriving DecidableEq, Repr

/-- `Response.raise_for_status()` of the `requests` library raises
`HTTPError` (a subclass of `RequestException`) exactly for terminal
status codes in `[400, 600)`. -/
def raise_for_status_raises (r : Response) : Bool :=
  400 ≤ r.status_code && r.status_code < 600

/-- Embedding of `fetch_url_content(url, follow_redirects)`: the result
of `requests.get` is passed in as `outcome`.  The source calls
`response.raise_for_status()` inside the same `try` block whose
`except requests.exceptions.RequestException` handler returns `None`,
so both transport-level failures and `HTTPError` statuses yield `none`;
every other response is returned to the caller. -/
def fetch_url_content (outcome : RequestOutcome) : Option Response :=
  match outcome with
  | .exn _ => none
  | .ok r => if raise_for_status_raises r then none else some r

/-- Boolean prefix test on strings: the semantics of Python
str.startswith, written over the character list so that it evaluates
inside the kernel. -/
def str_startsWith (s pre : String) : Bool :=
  pre.data.isPrefixOf s.data

/-- A raw anchor href is skipped by the link extraction loop of
`print_links_info` when it starts with the tel, mailto or javascript
scheme. -/
def href_excluded (href : String) : Bool :=
  str_startsWith href "tel:" || str_startsWith href "mailto:" || str_startsWith href "javascript:"

/-- Embedding of the extraction and classification loop of
`print_links_info`: every anchor href that is not excluded is resolved
against the final page URL with `urljoin` and appended to the internal
list when its `netloc` equals the netloc of the final URL, otherwise to
the external list.  `urljoin` and `netloc` stand for the library
helpers `requests.compat.urljoin` and `urlparse(...).netloc`. -/
def extract_links (urljoin : String → String → String) (netloc : String → String)
    (final_url : String) (hrefs : List String) : List String × List String :=
  hrefs.foldl
    (fun acc href =>
      if href_excluded href then acc
      else
        let full_url := urljoin final_url href
        if netloc full_url = netloc final_url then (acc.1 ++ [full_url], acc.2)
        else (acc.1, acc.2 ++ [full_url]))
    ([], [])

/-- Status bucketing of one link probe in `print_links_info`: a 2xx
response is GOOD, a 3xx response is NEUTRAL, any other status is FAIL,
and a raised `RequestException` is FAIL. -/
def link_status (outcome : RequestOutcome) : Status :=
  match outcome with
  | .exn _ => .FAIL
  | .ok r =>
      if 200 ≤ r.status_code ∧ r.status_code < 300 then .GOOD
      else if 300 ≤ r.status_code ∧ r.status_code < 400 then .NEUTRAL
      else .FAIL

/-- Embedding of `print_links_info`: extraction and classification
followed by one `requests.get` per element of the internal list and then
one per element of the external list (the source has two identical
sequential probe loops and no memoization).  Returns the link findings
in print order together with the trace of URLs passed to
`requests.get`, in call order. -/
def print_links_info (urljoin : String → String → String) (netloc : String → String)
    (probe : String → RequestOutcome) (final_url : String) (hrefs : List String) :
    List (Status × String) × List String :=
  let extracted := extract_links urljoin netloc final_url hrefs
  let probed := extracted.1 ++ extracted.2
  (probed.map (fun u => (link_status (probe u), u)), probed)

/-- An img (or e-img) element of the page: its alt and src attribute
values, the empty string when the attribute is absent (the source reads
them with `img.get(..., '')`). -/
structure Img where
  alt : String
  src : String
deriving DecidableEq, Repr

/-- A video or audio element: its tag name and src attribute value,
empty when absent. -/
structure MediaEl where
  name : String
  src : String
deriving DecidableEq, Repr

/-- One finding printed by `print_media_info`, as a variant record
rather than the formatted console string. -/
inductive MediaFinding where
  | media_source_good (name src : String)
  | media_source_missing (name : String)
  | image_inline
  | image_probed (alt_text img_name : String)
  | image_probe_error (img_name : String)
deriving DecidableEq, Repr

/-- The status argument `print_media_info` passes to `color_print` for
each media finding: a probed image is GOOD exactly when its (truncated)
alt text is truthy, a probe error or missing source is FAIL, and an
inline image is NEUTRAL. -/
def MediaFinding.status : MediaFinding → Status
  | .media_source_good _ _ => .GOOD
  | .media_source_missing _ => .FAIL
  | .image_inline => .NEUTRAL
  | .image_probed alt_text _ => if alt_text ≠ "" then .GOOD else .FAIL
  | .image_probe_error _ => .FAIL

/-- Truncation applied by `print_media_info` to alt texts and
filenames: a string of 50 or more characters is cut to its first 50
characters with an ellipsis appended. -/
def truncate50 (s : String) : String :=
  if s.length < 50 then s else String.mk (s.data.take 50) ++ "..."

/-- The filename `print_media_info` displays for an image: the part of
src after the last slash (the whole src when it contains no slash),
with the query string and the fragment removed, truncated to 50
characters; computed over the character list. -/
def img_display_name (src : String) : String :=
  let base : List Char :=
    if src.data.contains '/' then (src.data.reverse.takeWhile (fun c => c ≠ '/')).reverse
    else src.data
  truncate50 (String.mk ((base.takeWhile (fun c => c ≠ '?')).takeWhile (fun c => c ≠ '#')))

/-- The body of the image loop of `print_media_info` for one img
element: the finding it prints together with the `requests.get` calls
it issues.  An image whose src starts with `data:` is reported inline
with no network call; otherwise the src is resolved with `urljoin` and
fetched, and a raised `RequestException` yields a FAIL finding. -/
def audit_image (urljoin : String → String → String) (probe : String → RequestOutcome)
    (base_url : String) (img : Img) : MediaFinding × List String :=
  let alt_text := truncate50 img.alt
  if str_startsWith img.src "data:" then (.image_inline, [])
  else
    let img_name := img_display_name img.src
    let absolute_url := urljoin base_url img.src
    match probe absolute_url with
    | .ok _ => (.image_probed alt_text img_name, [absolute_url])
    | .exn _ => (.image_probe_error img_name, [absolute_url])

/-- Embedding of `print_media_info`: the video/audio findings first,
then one finding per img element in document order.  Returns the
findings in print order together with the trace of URLs passed to
`requests.get`, in call order. -/
def print_media_info (urljoin : String → String → String) (probe : String → RequestOutcome)
    (base_url : String) (videos : List MediaEl) (images : List Img) :
    List MediaFinding × List String :=
  (videos.map (fun m =>
      if m.src ≠ "" then MediaFinding.media_source_good m.name m.src
      else MediaFinding.media_source_missing m.name)
    ++ images.map (fun img => (audit_image urljoin probe base_url img).1),
   (images.map (fun img => (audit_image urljoin probe base_url img).2)).flatten)

/-- The CLI flags of `main` after argument parsing, `--all` kept as its
own flag exactly as argparse delivers it. -/
structure Args where
  follow : Bool
  media : Bool
  links : Bool
  server : Bool
  google : Bool
  content : Bool
  semantic : Bool
  all : Bool
deriving DecidableEq, Repr

/-- Observable outcome of one run of `main`: the process exit status,
the section headers printed in order, and whether the inline
`Failed to retrieve the URL.` finding was printed. -/
structure MainResult where
  exit_code : Nat
  sections : List String
  fetch_fail_reported : Bool
deriving DecidableEq, Repr

/-- Embedding of the control flow of `main`: the outcome of the primary
fetch (the value `fetch_url_content` returned) is passed in as
`fetched`.  The source never calls `sys.exit` and `main` returns
normally on every path, so the interpreter exit status is 0 throughout;
a failed primary fetch only prints the inline failure finding and skips
every page analyzer. -/
def main_run (args : Args) (fetched : Option Response) : MainResult :=
  let pre := (if args.server || args.all then ["Server Information"] else [])
    ++ ["Performance"]
  match fetched with
  | none => ⟨0, pre, true⟩
  | some _ =>
      ⟨0, pre ++ ["Redirects", "Status Code"]
        ++ (if args.google || args.all then ["Google Index Status"] else [])
        ++ ["SEO Header Analysis"]
        ++ (if args.content || args.all then ["SEO Content Analysis"] else [])
        ++ (if args.semantic || args.all then ["Semantic Analysis"] else [])
        ++ (if args.media || args.all then ["SEO Media Analysis"] else [])
        ++ (if args.links || args.all then ["Link Analysis"] else []), false⟩

/-- Step 4 of `semantic_analysis`: drop every token contained in the
stopword set.  Tokens arrive already lowercased from the word-boundary
regex, whose output token stream is the `words` argument. -/
def filtered_words (stop_words words : List String) : List String :=
  words.filter (fun w => !stop_words.contains w)

/-- One iteration of the frequency loop of `semantic_analysis`:
`word_frequency[word] = word_frequency.get(word, 0) + 1` on a Python
dict, whose keys keep insertion (first-occurrence) order — an existing
key is updated in place, a new key is appended. -/
def bump_word (acc : List (String × Nat)) (w : String) : List (String × Nat) :=
  if acc.any (fun p => p.1 == w) then
    acc.map (fun p => if p.1 == w then (p.1, p.2 + 1) else p)
  else acc ++ [(w, 1)]

/-- The insertion-ordered frequency dict of `semantic_analysis`, as the
association list of its items. -/
def word_frequency (ws : List String) : List (String × Nat) :=
  ws.foldl bump_word []

/-- Stable insertion of one entry into a list sorted by descending
count: the entry goes after every entry whose count is at least as
large, so entries with equal counts keep their arrival order. -/
def insort (x : String × Nat) : List (String × Nat) → List (String × Nat)
  | [] => [x]
  | y :: ys => if x.2 > y.2 then x :: y :: ys else y :: insort x ys

/-- Models `sorted(word_frequency.items(), key=..., reverse=True)` of
`semantic_analysis`: Python sorted is a stable sort, realized here as a
stable insertion sort by descending count processing the items in dict
order. -/
def sort_by_count_desc (l : List (String × Nat)) : List (String × Nat) :=
  l.foldl (fun acc x => insort x acc) []

/-- The keyword ranking of `semantic_analysis`: the first 10 entries of
the stable descending sort of the frequency dict built over the
filtered token stream. -/
def relevant_keywords (stop_words words : List String) : List (String × Nat) :=
  (sort_by_count_desc (word_frequency (filtered_words stop_words words))).take 10

/-- C3: `evaluate_field_length("", range)` is FAIL for every range; for a
non-empty string it is GOOD exactly when the length lies within the
inclusive `(min, max)` range and NEUTRAL otherwise. -/
theorem evaluate_field_length_spec (s : String) (mn mx : Nat) :
    evaluate_field_length "" (mn, mx) = .FAIL ∧
    (s ≠ "" →
      (evaluate_field_length s (mn, mx) = .GOOD ↔ mn ≤ s.length ∧ s.length ≤ mx) ∧
      (¬(mn ≤ s.length ∧ s.length ≤ mx) → evaluate_field_length s (mn, mx) = .NEUTRAL)) := by
  constructor
  · rfl
  · intro hs
    unfold evaluate_field_length
    rw [if_neg hs]
    constructor
    · by_cases h : mn ≤ s.length ∧ s.length ≤ mx
      · simp [h]
      · simp [h]
    · intro h
      simp [h]

/-- Witness for `evaluate_field_length_spec` at a concrete non-empty string. -/
theorem evaluate_field_length_spec_witness :
    evaluate_field_length "" (2, 5) = .FAIL ∧
    (evaluate_field_length "abc" (2, 5) = .GOOD ↔ 2 ≤ "abc".length ∧ "abc".length ≤ 5) := by
  refine ⟨(evaluate_field_length_spec "abc" 2 5).1, ?_⟩
  exact ((evaluate_field_length_spec "abc" 2 5).2 (by decide)).1

/-- C1: counterexample.  The claim states that a terminal 404 response is
still returned to the caller as a successful fetch result, but
`fetch_url_content` runs `raise_for_status()`, whose `HTTPError` is
caught by the surrounding `RequestException` handler, so the fetch of a
404 page yields `none` (a fetch error), not `some` response. -/
theorem fetch_url_content_404_counterexample :
    fetch_url_content (.ok ⟨404⟩) = none ∧
    ¬(200 ≤ 404 ∧ 404 < 400) := by
  exact ⟨rfl, by decide⟩

/-- C1 (amended): a transport-level `RequestException` yields a fetch
error, and a terminal response is returned as a successful fetch result
exactly when its status code is outside `[400, 600)`; terminal 4xx/5xx
statuses are converted into fetch errors by `raise_for_status()`. -/
theorem fetch_url_content_spec (m : String) (r : Response) :
    fetch_url_content (.exn m) = none ∧
    (fetch_url_content (.ok r) = some r ↔
      ¬(400 ≤ r.status_code ∧ r.status_code < 600)) := by
  refine ⟨rfl, ?_⟩
  unfold fetch_url_content raise_for_status_raises
  by_cases h : 400 ≤ r.status_code ∧ r.status_code < 600
  · simp [h.1, h.2]
  · rcases Decidable.not_and_iff_or_not.mp h with h1 | h2
    · simp only [Bool.and_eq_true, decide_eq_true_eq]
      rw [if_neg (fun hc => h1 hc.1)]
      simp [h]
    · simp only [Bool.and_eq_true, decide_eq_true_eq]
      rw [if_neg (fun hc => h2 hc.2)]
      simp [h]

/-- C6: heading evaluation emits the FAIL finding `No H1 tag found.`
when the page has zero H1 elements, and the distinct FAIL finding
`Multiple H1 tags found.` when it has more than one; the multiplicity
finding is independent of the per-tag length evaluation (each H1 still
receives its own length finding alongside it); and a page with exactly
one H1 whose length lies in `[1, 70]` receives a GOOD H1 finding and no
multiplicity FAIL. -/
theorem print_heading_tags_h1_multiplicity (h1s h2s h3s : List String) :
    (Finding.mk .FAIL "Headings" "No H1 tag found." ≠
      Finding.mk .FAIL "Headings" "Multiple H1 tags found.") ∧
    (h1s = [] →
      Finding.mk .FAIL "Headings" "No H1 tag found." ∈ print_heading_tags h1s h2s h3s) ∧
    (2 ≤ h1s.length →
      Finding.mk .FAIL "Headings" "Multiple H1 tags found." ∈ print_heading_tags h1s h2s h3s ∧
      ∀ c ∈ h1s,
        Finding.mk (evaluate_field_length c (1, SEO_H1_LIMIT)) "H1" c ∈
          print_heading_tags h1s h2s h3s) ∧
    (∀ c, h1s = [c] → 1 ≤ c.length → c.length ≤ 70 →
      Finding.mk .GOOD "H1" c ∈ print_heading_tags h1s h2s h3s ∧
      Finding.mk .FAIL "Headings" "Multiple H1 tags found." ∉ print_heading_tags h1s h2s h3s) := by
  refine ⟨by decide, ?_, ?_, ?_⟩
  · intro h
    subst h
    rw [print_heading_tags]
    refine List.mem_append_left _ (List.mem_append_left _ ?_)
    refine List.mem_append_left _ (List.mem_append_left _ ?_)
    simp
  · intro h
    have hgt : h1s.length > 1 := h
    constructor
    · rw [print_heading_tags]
      refine List.mem_append_right _ ?_
      rw [if_pos hgt]
      exact List.mem_singleton_self _
    · intro c hc
      rw [print_heading_tags]
      refine List.mem_append_left _ (List.mem_append_left _ (List.mem_append_left _ ?_))
      exact List.mem_append_right _ (List.mem_map_of_mem _ hc)
  · intro c hc h1 h70
    subst hc
    have hgood : evaluate_field_length c (1, SEO_H1_LIMIT) = .GOOD := by
      have hne : c ≠ "" := by
        intro h
        rw [h] at h1
        exact absurd h1 (by decide)
      unfold evaluate_field_length
      rw [if_neg hne]
      exact if_pos ⟨h1, h70⟩
    constructor
    · rw [print_heading_tags]
      refine List.mem_append_left _ (List.mem_append_left _ (List.mem_append_left _ ?_))
      refine List.mem_append_right _ ?_
      simp only [List.map_cons, List.map_nil, List.mem_singleton, hgood]
    · intro hmem
      rw [print_heading_tags] at hmem
      simp at hmem

/-- Witness for `print_heading_tags_h1_multiplicity`: on a page with two
H1 elements the multiplicity FAIL finding is present, and on a page with
a single short H1 the GOOD finding is present with no multiplicity FAIL. -/
theorem print_heading_tags_h1_multiplicity_witness :
    Finding.mk .FAIL "Headings" "Multiple H1 tags found." ∈
      print_heading_tags ["a", "b"] [] [] ∧
    Finding.mk .GOOD "H1" "ok" ∈ print_heading_tags ["ok"] [] [] ∧
    Finding.mk .FAIL "Headings" "Multiple H1 tags found." ∉
      print_heading_tags ["ok"] [] [] := by
  refine ⟨((print_heading_tags_h1_multiplicity ["a", "b"] [] []).2.2.1 (by decide)).1, ?_, ?_⟩
  · exact ((print_heading_tags_h1_multiplicity ["ok"] [] []).2.2.2 "ok" rfl
      (by decide) (by decide)).1
  · exact ((print_heading_tags_h1_multiplicity ["ok"] [] []).2.2.2 "ok" rfl
      (by decide) (by decide)).2

/-- C10: a page whose only H1 has empty text receives a FAIL finding for
that H1 (the empty content fails the `[1, 70]` length evaluation) while
no `Multiple H1 tags found.` finding is emitted. -/
theorem print_heading_tags_single_empty_h1 (h2s h3s : List String) :
    Finding.mk .FAIL "H1" "" ∈ print_heading_tags [""] h2s h3s ∧
    Finding.mk .FAIL "Headings" "Multiple H1 tags found." ∉
      print_heading_tags [""] h2s h3s := by
  constructor
  · rw [print_heading_tags]
    refine List.mem_append_left _ (List.mem_append_left _ (List.mem_append_left _ ?_))
    refine List.mem_append_right _ ?_
    simp only [List.map_cons, List.map_nil, List.mem_singleton]
    rfl
  · intro hmem
    rw [print_heading_tags] at hmem
    simp at hmem

/-- Characterization of the extraction loop of `print_links_info`,
generalized over the accumulator: the internal list collects the
resolved non-excluded hrefs whose netloc matches the final URL, the
external list the remaining resolved non-excluded hrefs, both in
document order. -/
theorem extract_links_foldl (urljoin : String → String → String) (netloc : String → String)
    (final_url : String) (hrefs : List String) (acc : List String × List String) :
    hrefs.foldl
      (fun acc href =>
        if href_excluded href then acc
        else
          let full_url := urljoin final_url href
          if netloc full_url = netloc final_url then (acc.1 ++ [full_url], acc.2)
          else (acc.1, acc.2 ++ [full_url]))
      acc =
    (acc.1 ++ (((hrefs.filter (fun h => !href_excluded h)).map (urljoin final_url)).filter
        (fun u => netloc u = netloc final_url)),
     acc.2 ++ (((hrefs.filter (fun h => !href_excluded h)).map (urljoin final_url)).filter
        (fun u => ¬(netloc u = netloc final_url)))) := by
  induction hrefs generalizing acc with
  | nil => simp
  | cons h t ih =>
    rw [List.foldl_cons]
    by_cases hex : href_excluded h
    · rw [if_pos hex, ih]
      simp [hex]
    · rw [if_neg hex]
      simp only [hex, Bool.not_false, List.filter_cons_of_pos, List.map_cons]
      by_cases hin : netloc (urljoin final_url h) = netloc final_url
      · rw [if_pos hin, ih]
        simp [hin, List.append_assoc]
      · rw [if_neg hin, ih]
        simp [hin, List.append_assoc]

/-- C7: link extraction collects every anchor href except those starting
with the tel, mailto or javascript scheme, resolves each against the
final page URL, and classifies a resolved link as internal exactly when
its netloc equals the netloc of the final URL, otherwise external; both
partitions keep document order. -/
theorem extract_links_spec (urljoin : String → String → String) (netloc : String → String)
    (final_url : String) (hrefs : List String) :
    (extract_links urljoin netloc final_url hrefs).1 =
      ((hrefs.filter (fun h =>
          !(str_startsWith h "tel:" || str_startsWith h "mailto:" ||
            str_startsWith h "javascript:"))).map
        (urljoin final_url)).filter (fun u => netloc u = netloc final_url) ∧
    (extract_links urljoin netloc final_url hrefs).2 =
      ((hrefs.filter (fun h =>
          !(str_startsWith h "tel:" || str_startsWith h "mailto:" ||
            str_startsWith h "javascript:"))).map
        (urljoin final_url)).filter (fun u => ¬(netloc u = netloc final_url)) := by
  rw [extract_links, extract_links_foldl]
  exact ⟨by simp [href_excluded], by simp [href_excluded]⟩

/-- C2: counterexample.  On a page whose final URL is
`http://a.com/` with three internal anchors (two distinct URLs, one
duplicate) and one external anchor, `print_links_info` issues four
network probes — the duplicate resolved URL is probed twice — where the
claim allows at most three probes and at most one probe per distinct
resolved URL. -/
theorem print_links_info_dup_counterexample :
    (print_links_info (fun _ h => h)
      (fun u => if str_startsWith u "http://a.com" then "a.com" else "b.com")
      (fun _ => .exn "err") "http://a.com/"
      ["http://a.com/p", "http://a.com/p", "http://a.com/q", "http://b.com/r"]).2.length = 4 ∧
    (print_links_info (fun _ h => h)
      (fun u => if str_startsWith u "http://a.com" then "a.com" else "b.com")
      (fun _ => .exn "err") "http://a.com/"
      ["http://a.com/p", "http://a.com/p", "http://a.com/q",
        "http://b.com/r"]).2.count "http://a.com/p" = 2 := by
  constructor
  · decide
  · decide

/-- C2 (amended): `print_links_info` issues exactly one network probe
per non-excluded anchor and emits exactly one finding per probe, so
duplicate anchors pointing to the same resolved URL are each probed
again rather than reusing a cached result. -/
theorem print_links_info_probe_per_anchor (urljoin : String → String → String)
    (netloc : String → String) (probe : String → RequestOutcome)
    (final_url : String) (hrefs : List String) :
    (print_links_info urljoin netloc probe final_url hrefs).2.length =
      (hrefs.filter (fun h => !href_excluded h)).length ∧
    (print_links_info urljoin netloc probe final_url hrefs).1 =
      (print_links_info urljoin netloc probe final_url hrefs).2.map
        (fun u => (link_status (probe u), u)) := by
  constructor
  · show ((extract_links urljoin netloc final_url hrefs).1 ++
      (extract_links urljoin netloc final_url hrefs).2).length = _
    rw [extract_links, extract_links_foldl]
    simp only [List.nil_append, List.length_append]
    have hsplit := List.length_eq_length_filter_add
      (l := (hrefs.filter (fun h => !href_excluded h)).map (urljoin final_url))
      (fun u => decide (netloc u = netloc final_url))
    rw [List.length_map] at hsplit
    simp only [decide_not]
    exact hsplit.symm
  · rfl

/-- The (truncated) alt text is truthy exactly when the raw alt text is
non-empty: truncation keeps short strings unchanged and appends an
ellipsis to long ones. -/
theorem truncate50_eq_empty_iff (s : String) : truncate50 s = "" ↔ s = "" := by
  unfold truncate50
  by_cases h : s.length < 50
  · rw [if_pos h]
  · rw [if_neg h]
    constructor
    · intro hc
      have hlen : (String.mk (s.data.take 50) ++ "...").length =
          (String.mk (s.data.take 50)).length + 3 := by
        rw [String.length_append]
        rfl
      rw [hc] at hlen
      simp at hlen
    · intro hc
      subst hc
      exact absurd (by decide : ("" : String).length < 50) h

/-- C5: counterexample.  An image with alt text present whose probe
fetch raises is classified FAIL by the media auditor — the exception
handler prints FAIL regardless of the alt text — where the claim
requires GOOD whenever alt text is present. -/
theorem print_media_info_fetch_error_counterexample :
    (print_media_info (fun _ s => s) (fun _ => .exn "timeout") "http://a.com/" []
      [⟨"described", "http://a.com/i.png"⟩]).1 =
      [MediaFinding.image_probe_error "i.png"] ∧
    (MediaFinding.image_probe_error "i.png").status = .FAIL ∧
    ("described" : String) ≠ "" := by
  refine ⟨by decide, by decide, by decide⟩

/-- C5 (amended): for an image whose src is not a data URI, the media
auditor classifies it GOOD exactly when alt text is present provided
the probe fetch succeeds; when the probe raises, the finding is FAIL
regardless of the alt text. -/
theorem audit_image_classification (urljoin : String → String → String)
    (probe : String → RequestOutcome) (base_url : String) (img : Img)
    (hdata : str_startsWith img.src "data:" = false) :
    (∀ r, probe (urljoin base_url img.src) = .ok r →
      ((audit_image urljoin probe base_url img).1.status = .GOOD ↔ ¬(img.alt = ""))) ∧
    (∀ m, probe (urljoin base_url img.src) = .exn m →
      (audit_image urljoin probe base_url img).1.status = .FAIL) := by
  constructor
  · intro r hr
    rw [audit_image]
    rw [hdata]
    simp only [Bool.false_eq_true, if_false, hr]
    rw [MediaFinding.status]
    by_cases halt : img.alt = ""
    · have : truncate50 img.alt = "" := (truncate50_eq_empty_iff img.alt).mpr halt
      rw [if_neg (by simpa using this)]
      constructor
      · intro hc
        exact absurd hc (by decide)
      · intro hc
        exact absurd halt hc
    · have : ¬(truncate50 img.alt = "") :=
        fun hc => halt ((truncate50_eq_empty_iff img.alt).mp hc)
      rw [if_pos this]
      exact ⟨fun _ => halt, fun _ => rfl⟩
  · intro m hm
    rw [audit_image]
    rw [hdata]
    simp only [Bool.false_eq_true, if_false, hm]
    rfl

/-- Witness for `audit_image_classification`: a successfully probed
image with alt text is GOOD, and the same image is FAIL when the probe
raises. -/
theorem audit_image_classification_witness :
    ((audit_image (fun _ s => s) (fun _ => .ok ⟨200⟩) "http://a.com/"
        ⟨"logo", "img/logo.png"⟩).1.status = .GOOD ↔ ¬(("logo" : String) = "")) ∧
    (audit_image (fun _ s => s) (fun _ => .exn "timeout") "http://a.com/"
        ⟨"logo", "img/logo.png"⟩).1.status = .FAIL := by
  constructor
  · exact (audit_image_classification (fun _ s => s) (fun _ => .ok ⟨200⟩) "http://a.com/"
      ⟨"logo", "img/logo.png"⟩ (by decide)).1 ⟨200⟩ rfl
  · exact (audit_image_classification (fun _ s => s) (fun _ => .exn "timeout") "http://a.com/"
      ⟨"logo", "img/logo.png"⟩ (by decide)).2 "timeout" rfl

/-- The probe trace of `print_media_info`: exactly the non-data images,
resolved against the base URL, in document order. -/
theorem print_media_info_trace (urljoin : String → String → String)
    (probe : String → RequestOutcome) (base_url : String)
    (videos : List MediaEl) (images : List Img) :
    (print_media_info urljoin probe base_url videos images).2 =
      (images.filter (fun i => !str_startsWith i.src "data:")).map
        (fun i => urljoin base_url i.src) := by
  show ((images.map (fun img => (audit_image urljoin probe base_url img).2)).flatten = _)
  induction images with
  | nil => rfl
  | cons i t ih =>
    rw [List.map_cons, List.flatten_cons, ih]
    by_cases hd : str_startsWith i.src "data:"
    · rw [audit_image]
      rw [hd]
      simp [hd]
    · rw [audit_image]
      simp only [hd, Bool.false_eq_true, if_false]
      cases hp : probe (urljoin base_url i.src) with
      | ok r => simp [hd]
      | exn m => simp [hd]

/-- C9: an image whose src begins with the data scheme is recorded as
the inline skipped finding (printed NEUTRAL) and never causes a network
probe: its own trace is empty, and the probe trace of the whole media
audit consists exactly of the resolved non-data images. -/
theorem media_data_uri_skipped (urljoin : String → String → String)
    (probe : String → RequestOutcome) (base_url : String) (img : Img)
    (h : str_startsWith img.src "data:" = true) :
    (audit_image urljoin probe base_url img).1 = .image_inline ∧
    MediaFinding.status .image_inline = .NEUTRAL ∧
    (audit_image urljoin probe base_url img).2 = [] ∧
    (∀ videos images, (print_media_info urljoin probe base_url videos images).2 =
      (images.filter (fun i => !str_startsWith i.src "data:")).map
        (fun i => urljoin base_url i.src)) := by
  refine ⟨?_, rfl, ?_, ?_⟩
  · rw [audit_image, h]
    rfl
  · rw [audit_image, h]
    rfl
  · intro videos images
    exact print_media_info_trace urljoin probe base_url videos images

/-- Witness for `media_data_uri_skipped` on a concrete inline image. -/
theorem media_data_uri_skipped_witness :
    (audit_image (fun _ s => s) (fun _ => .exn "never") "http://a.com/"
      ⟨"", "data:image/png;base64,AAA"⟩).1 = .image_inline ∧
    (audit_image (fun _ s => s) (fun _ => .exn "never") "http://a.com/"
      ⟨"", "data:image/png;base64,AAA"⟩).2 = [] := by
  constructor
  · exact (media_data_uri_skipped (fun _ s => s) (fun _ => .exn "never") "http://a.com/"
      ⟨"", "data:image/png;base64,AAA"⟩ (by decide)).1
  · exact (media_data_uri_skipped (fun _ s => s) (fun _ => .exn "never") "http://a.com/"
      ⟨"", "data:image/png;base64,AAA"⟩ (by decide)).2.2.1

/-- C4: counterexample.  When the primary fetch fails outright, `main`
prints the inline failure finding and returns normally; the process
exit status is 0, not non-zero as the claim requires. -/
theorem main_exit_counterexample :
    (main_run ⟨false, false, false, false, false, false, false, false⟩ none).exit_code = 0 ∧
    (main_run ⟨false, false, false, false, false, false, false, false⟩
      none).fetch_fail_reported = true := by
  exact ⟨rfl, rfl⟩

/-- C4 (amended): the process always exits with status 0 — `main` never
calls `sys.exit` — so a failed primary fetch is reported only by the
inline failure finding and skips every page analyzer section, and
partial analyzer failures likewise leave the exit status at success. -/
theorem main_exit_spec (args : Args) (fetched : Option Response) :
    (main_run args fetched).exit_code = 0 ∧
    (fetched = none →
      (main_run args fetched).fetch_fail_reported = true ∧
      "SEO Header Analysis" ∉ (main_run args fetched).sections ∧
      "SEO Content Analysis" ∉ (main_run args fetched).sections ∧
      "Semantic Analysis" ∉ (main_run args fetched).sections ∧
      "SEO Media Analysis" ∉ (main_run args fetched).sections ∧
      "Link Analysis" ∉ (main_run args fetched).sections) ∧
    (∀ r, fetched = some r → (main_run args fetched).fetch_fail_reported = false) := by
  refine ⟨?_, ?_, ?_⟩
  · cases fetched <;> rfl
  · intro h
    subst h
    refine ⟨rfl, ?_, ?_, ?_, ?_, ?_⟩ <;>
      · show _ ∉ (if args.server || args.all then ["Server Information"] else [])
          ++ ["Performance"]
        by_cases hs : args.server || args.all <;> simp [hs]
  · intro r h
    subst h
    rfl

/-- Witness for `main_exit_spec` at concrete arguments: a failed fetch
exits 0 with the failure reported inline and no analyzer sections, and
a successful fetch exits 0 with no failure finding. -/
theorem main_exit_spec_witness :
    (main_run ⟨true, true, true, true, true, true, true, true⟩ none).exit_code = 0 ∧
    "Link Analysis" ∉
      (main_run ⟨true, true, true, true, true, true, true, true⟩ none).sections ∧
    (main_run ⟨true, true, true, true, true, true, true, true⟩
      (some ⟨200⟩)).fetch_fail_reported = false := by
  refine ⟨(main_exit_spec ⟨true, true, true, true, true, true, true, true⟩ none).1, ?_, ?_⟩
  · exact ((main_exit_spec ⟨true, true, true, true, true, true, true, true⟩ none).2.1
      rfl).2.2.2.2.2
  · exact (main_exit_spec ⟨true, true, true, true, true, true, true, true⟩
      (some ⟨200⟩)).2.2 ⟨200⟩ rfl

open List in
/-- Inserting an entry is a permutation of consing it. -/
theorem insort_perm (x : String × Nat) (l : List (String × Nat)) :
    insort x l ~ x :: l := by
  induction l with
  | nil => rfl
  | cons z zs ih =>
    rw [insort]
    by_cases h : x.2 > z.2
    · rw [if_pos h]
    · rw [if_neg h]
      calc z :: insort x zs ~ z :: x :: zs := ih.cons z
        _ ~ x :: z :: zs := List.Perm.swap x z zs

open List in
/-- Insertion preserves the descending-count ordering. -/
theorem insort_sorted (x : String × Nat) (l : List (String × Nat))
    (h : l.Pairwise (fun a b => b.2 ≤ a.2)) :
    (insort x l).Pairwise (fun a b => b.2 ≤ a.2) := by
  induction l with
  | nil => simp [insort]
  | cons z zs ih =>
    rw [insort]
    rcases List.pairwise_cons.mp h with ⟨hz, hzs⟩
    by_cases hgt : x.2 > z.2
    · rw [if_pos hgt]
      refine List.pairwise_cons.mpr ⟨?_, h⟩
      intro b hb
      rcases List.mem_cons.mp hb with rfl | hb
      · exact Nat.le_of_lt hgt
      · exact Nat.le_trans (hz b hb) (Nat.le_of_lt hgt)
    · rw [if_neg hgt]
      refine List.pairwise_cons.mpr ⟨?_, ih hzs⟩
      intro b hb
      rcases List.mem_cons.mp ((insort_perm x zs).mem_iff.mp hb) with rfl | hb
      · exact Nat.le_of_not_lt hgt
      · exact hz b hb

open List in
/-- Insertion into a descending-sorted list preserves any pairwise
relation that holds whenever counts strictly decrease, provided the new
entry is in relation with every present entry. -/
theorem insort_pairwise (R : String × Nat → String × Nat → Prop)
    (hgt : ∀ a b : String × Nat, b.2 < a.2 → R a b)
    (x : String × Nat) (l : List (String × Nat))
    (hsort : l.Pairwise (fun a b => b.2 ≤ a.2))
    (hR : l.Pairwise R) (hall : ∀ y ∈ l, R y x) :
    (insort x l).Pairwise R := by
  induction l with
  | nil => simp [insort]
  | cons z zs ih =>
    rw [insort]
    rcases List.pairwise_cons.mp hsort with ⟨hz, hzs⟩
    rcases List.pairwise_cons.mp hR with ⟨hRz, hRzs⟩
    by_cases hx : x.2 > z.2
    · rw [if_pos hx]
      refine List.pairwise_cons.mpr ⟨?_, hR⟩
      intro b hb
      rcases List.mem_cons.mp hb with rfl | hb
      · exact hgt x b hx
      · exact hgt x b (Nat.lt_of_le_of_lt (hz b hb) hx)
    · rw [if_neg hx]
      refine List.pairwise_cons.mpr
        ⟨?_, ih hzs hRzs (fun y hy => hall y (List.mem_cons_of_mem z hy))⟩
      intro b hb
      rcases List.mem_cons.mp ((insort_perm x zs).mem_iff.mp hb) with rfl | hb
      · exact hall z (List.mem_cons_self z zs)
      · exact hRz b hb

open List in
/-- The insertion-sort fold is descending-sorted and preserves the
pairwise relation of its input under the same side conditions. -/
theorem foldl_insort_spec (R : String × Nat → String × Nat → Prop)
    (hgt : ∀ a b : String × Nat, b.2 < a.2 → R a b) :
    ∀ (l acc : List (String × Nat)),
      acc.Pairwise (fun a b => b.2 ≤ a.2) → acc.Pairwise R →
      (∀ a ∈ acc, ∀ b ∈ l, R a b) → l.Pairwise R →
      (l.foldl (fun acc x => insort x acc) acc).Pairwise (fun a b => b.2 ≤ a.2) ∧
      (l.foldl (fun acc x => insort x acc) acc).Pairwise R
  | [], acc, hs, hR, _, _ => ⟨hs, hR⟩
  | x :: t, acc, hs, hR, hcross, hl => by
    rw [List.foldl_cons]
    rcases List.pairwise_cons.mp hl with ⟨hxl, hlt⟩
    refine foldl_insort_spec R hgt t (insort x acc) ?_ ?_ ?_ hlt
    · exact insort_sorted x acc hs
    · exact insort_pairwise R hgt x acc hs hR
        (fun y hy => hcross y hy x (List.mem_cons_self x t))
    · intro a ha b hb
      rcases List.mem_cons.mp ((insort_perm x acc).mem_iff.mp ha) with rfl | ha
      · exact hxl b hb
      · exact hcross a ha b (List.mem_cons_of_mem x hb)

open List in
/-- The insertion-sort fold permutes its input onto the accumulator. -/
theorem foldl_insort_perm :
    ∀ (l acc : List (String × Nat)),
      (l.foldl (fun acc x => insort x acc) acc) ~ acc ++ l
  | [], acc => by simp
  | x :: t, acc => by
    rw [List.foldl_cons]
    calc t.foldl (fun acc x => insort x acc) (insort x acc)
          ~ insort x acc ++ t := foldl_insort_perm t (insort x acc)
      _ ~ (x :: acc) ++ t := (insort_perm x acc).append_right t
      _ ~ acc ++ x :: t := List.perm_middle.symm

open List in
/-- The stable sort is a permutation of the frequency dict. -/
theorem sort_by_count_desc_perm (l : List (String × Nat)) :
    sort_by_count_desc l ~ l := by
  simpa using foldl_insort_perm l []

/-- One `bump_word` step keeps the dict invariants: counts match the
processed prefix, the keys are exactly the processed words without
duplicates, and the entries are ordered by first occurrence. -/
theorem bump_word_spec (p : List String) (w : String) (acc : List (String × Nat))
    (hcount : ∀ q ∈ acc, q.2 = p.count q.1)
    (hkeys : ∀ v, v ∈ acc.map Prod.fst ↔ v ∈ p)
    (hnodup : (acc.map Prod.fst).Nodup)
    (horder : acc.Pairwise (fun a b => p.indexOf a.1 < p.indexOf b.1)) :
    (∀ q ∈ bump_word acc w, q.2 = (p ++ [w]).count q.1) ∧
    (∀ v, v ∈ (bump_word acc w).map Prod.fst ↔ v ∈ p ++ [w]) ∧
    ((bump_word acc w).map Prod.fst).Nodup ∧
    (bump_word acc w).Pairwise
      (fun a b => (p ++ [w]).indexOf a.1 < (p ++ [w]).indexOf b.1) := by
  rw [bump_word]
  by_cases hin : acc.any (fun q => q.1 == w) = true
  · rw [if_pos hin]
    have hwkey : w ∈ acc.map Prod.fst := by
      rcases List.any_eq_true.mp hin with ⟨q, hq, hbeq⟩
      exact List.mem_map.mpr ⟨q, hq, by simpa using hbeq⟩
    have hwp : w ∈ p := (hkeys w).mp hwkey
    have hkeep : ∀ q : String × Nat,
        ((if q.1 == w then (q.1, q.2 + 1) else q) : String × Nat).1 = q.1 := by
      intro q
      by_cases h : (q.1 == w) = true
      · rw [if_pos h]
      · rw [if_neg h]
    have hkeyseq : (acc.map (fun q => if q.1 == w then (q.1, q.2 + 1) else q)).map Prod.fst
        = acc.map Prod.fst := by
      rw [List.map_map]
      exact List.map_congr_left (fun q _ => hkeep q)
    have hidx : ∀ v ∈ acc.map Prod.fst, (p ++ [w]).indexOf v = p.indexOf v := by
      intro v hv
      exact List.indexOf_append_of_mem ((hkeys v).mp hv)
    refine ⟨?_, ?_, ?_, ?_⟩
    · intro q' hq'
      rcases List.mem_map.mp hq' with ⟨q, hq, hfq⟩
      by_cases hqw : (q.1 == w) = true
      · rw [if_pos hqw] at hfq
        have hq1 : q.1 = w := by simpa using hqw
        rw [← hfq]
        show q.2 + 1 = (p ++ [w]).count q.1
        have h1 : List.count q.1 [w] = 1 := by
          rw [hq1]
          simp
        rw [List.count_append, h1, hcount q hq]
      · rw [if_neg hqw] at hfq
        rw [← hfq]
        have hq1 : q.1 ≠ w := fun h => hqw (by simp [h])
        have h0 : List.count q.1 [w] = 0 := List.count_eq_zero.mpr (by simpa using hq1)
        rw [List.count_append, h0, Nat.add_zero]
        exact hcount q hq
    · intro v
      rw [hkeyseq]
      constructor
      · intro hv
        exact List.mem_append_left _ ((hkeys v).mp hv)
      · intro hv
        rcases List.mem_append.mp hv with hv | hv
        · exact (hkeys v).mpr hv
        · have hvw : v = w := by simpa using hv
          rw [hvw]
          exact hwkey
    · rw [hkeyseq]
      exact hnodup
    · rw [List.pairwise_map]
      refine horder.imp_of_mem fun {a b} ha hb hr => ?_
      rw [hkeep a, hkeep b,
        hidx a.1 (List.mem_map_of_mem Prod.fst ha),
        hidx b.1 (List.mem_map_of_mem Prod.fst hb)]
      exact hr
  · rw [if_neg hin]
    have hwkey : w ∉ acc.map Prod.fst := by
      intro hv
      rcases List.mem_map.mp hv with ⟨q, hq, hq1⟩
      exact hin (List.any_eq_true.mpr ⟨q, hq, by simp [hq1]⟩)
    have hwp : w ∉ p := fun h => hwkey ((hkeys w).mpr h)
    have hkeysapp : (acc ++ [(w, 1)]).map Prod.fst = acc.map Prod.fst ++ [w] := by
      rw [List.map_append]
      rfl
    have hidx : ∀ v ∈ acc.map Prod.fst, (p ++ [w]).indexOf v = p.indexOf v := fun v hv =>
      List.indexOf_append_of_mem ((hkeys v).mp hv)
    refine ⟨?_, ?_, ?_, ?_⟩
    · intro q hq
      rcases List.mem_append.mp hq with hq | hq
      · have hq1 : q.1 ≠ w := by
          intro h
          exact hwkey (h ▸ List.mem_map_of_mem Prod.fst hq)
        have h0 : List.count q.1 [w] = 0 := List.count_eq_zero.mpr (by simpa using hq1)
        rw [List.count_append, h0, Nat.add_zero]
        exact hcount q hq
      · have hqw : q = (w, 1) := by simpa using hq
        rw [hqw]
        show (1 : Nat) = (p ++ [w]).count w
        rw [List.count_append, List.count_eq_zero.mpr hwp]
        simp
    · intro v
      rw [hkeysapp]
      constructor
      · intro hv
        rcases List.mem_append.mp hv with hv | hv
        · exact List.mem_append_left _ ((hkeys v).mp hv)
        · exact List.mem_append_right _ hv
      · intro hv
        rcases List.mem_append.mp hv with hv | hv
        · exact List.mem_append_left _ ((hkeys v).mpr hv)
        · exact List.mem_append_right _ hv
    · rw [hkeysapp, List.nodup_append]
      refine ⟨hnodup, List.nodup_singleton w, ?_⟩
      intro a ha hb
      rw [List.mem_singleton] at hb
      exact hwkey (hb ▸ ha)
    · rw [List.pairwise_append]
      refine ⟨?_, by simp, ?_⟩
      · refine horder.imp_of_mem fun {a b} ha hb hr => ?_
        rw [hidx a.1 (List.mem_map_of_mem Prod.fst ha),
          hidx b.1 (List.mem_map_of_mem Prod.fst hb)]
        exact hr
      · intro a ha b hb
        rw [List.mem_singleton] at hb
        rw [hb]
        show (p ++ [w]).indexOf a.1 < (p ++ [w]).indexOf w
        rw [hidx a.1 (List.mem_map_of_mem Prod.fst ha),
          List.indexOf_append_of_not_mem hwp, List.indexOf_cons_self w [], Nat.add_zero]
        exact List.indexOf_lt_length.mpr ((hkeys a.1).mp (List.mem_map_of_mem Prod.fst ha))

/-- The frequency fold keeps the dict invariants across a suffix of
the token stream. -/
theorem word_frequency_foldl_spec :
    ∀ (rest p : List String) (acc : List (String × Nat)),
      (∀ q ∈ acc, q.2 = p.count q.1) →
      (∀ v, v ∈ acc.map Prod.fst ↔ v ∈ p) →
      (acc.map Prod.fst).Nodup →
      acc.Pairwise (fun a b => p.indexOf a.1 < p.indexOf b.1) →
      (∀ q ∈ rest.foldl bump_word acc, q.2 = (p ++ rest).count q.1) ∧
      (∀ v, v ∈ (rest.foldl bump_word acc).map Prod.fst ↔ v ∈ p ++ rest) ∧
      ((rest.foldl bump_word acc).map Prod.fst).Nodup ∧
      (rest.foldl bump_word acc).Pairwise
        (fun a b => (p ++ rest).indexOf a.1 < (p ++ rest).indexOf b.1)
  | [], p, acc => fun hc hk hn ho => by
    rw [List.foldl_nil, List.append_nil]
    exact ⟨hc, hk, hn, ho⟩
  | w :: t, p, acc => fun hc hk hn ho => by
    rw [List.foldl_cons]
    rcases bump_word_spec p w acc hc hk hn ho with ⟨hc', hk', hn', ho'⟩
    have h := word_frequency_foldl_spec t (p ++ [w]) (bump_word acc w) hc' hk' hn' ho'
    rw [List.append_assoc] at h
    simpa using h

/-- The frequency dict of a token stream: every entry carries the
number of occurrences of its word, and entries are ordered by first
occurrence. -/
theorem word_frequency_spec (ws : List String) :
    (∀ q ∈ word_frequency ws, q.2 = ws.count q.1) ∧
    (word_frequency ws).Pairwise (fun a b => ws.indexOf a.1 < ws.indexOf b.1) := by
  have h := word_frequency_foldl_spec ws [] []
    (by intro q hq; simp at hq) (by intro v; simp) (by simp) (by simp)
  rw [List.nil_append] at h
  exact ⟨h.1, h.2.2.2⟩

open List in
/-- C8: the keyword ranking reports at most 10 terms, ordered by
descending frequency count; every reported count is the frequency of
that term in the filtered token stream; terms with equal counts appear
in first-occurrence order of the token stream; and every frequency
entry left out of the ranking has a count no larger than every reported
one.  The ranking is a pure function of the token stream and the
stopword set, so it is identical across runs. -/
theorem relevant_keywords_spec (stop_words words : List String) :
    (relevant_keywords stop_words words).length ≤ 10 ∧
    (relevant_keywords stop_words words).Pairwise (fun a b => b.2 ≤ a.2) ∧
    (∀ q ∈ relevant_keywords stop_words words,
      q.2 = (filtered_words stop_words words).count q.1) ∧
    (relevant_keywords stop_words words).Pairwise (fun a b =>
      a.2 = b.2 →
        (filtered_words stop_words words).indexOf a.1 <
          (filtered_words stop_words words).indexOf b.1) ∧
    (∀ q ∈ word_frequency (filtered_words stop_words words),
      q ∉ relevant_keywords stop_words words →
      ∀ r ∈ relevant_keywords stop_words words, q.2 ≤ r.2) := by
  have hfreq := word_frequency_spec (filtered_words stop_words words)
  have hperm : sort_by_count_desc (word_frequency (filtered_words stop_words words)) ~
      word_frequency (filtered_words stop_words words) :=
    sort_by_count_desc_perm _
  have hgt : ∀ a b : String × Nat, b.2 < a.2 →
      (a.2 = b.2 → (filtered_words stop_words words).indexOf a.1 <
        (filtered_words stop_words words).indexOf b.1) := by
    intro a b hlt heq
    rw [heq] at hlt
    exact absurd hlt (Nat.lt_irrefl b.2)
  have hfreqR : (word_frequency (filtered_words stop_words words)).Pairwise
      (fun a b => a.2 = b.2 → (filtered_words stop_words words).indexOf a.1 <
        (filtered_words stop_words words).indexOf b.1) :=
    hfreq.2.imp_of_mem (fun _ _ h _ => h)
  have hsorted := foldl_insort_spec _ hgt
    (word_frequency (filtered_words stop_words words)) []
    (by simp) (by simp) (by simp) hfreqR
  refine ⟨?_, ?_, ?_, ?_, ?_⟩
  · show (List.take 10 _).length ≤ 10
    rw [List.length_take]
    exact Nat.min_le_left _ _
  · exact hsorted.1.sublist (List.take_sublist _ _)
  · intro q hq
    exact hfreq.1 q (hperm.subset (List.mem_of_mem_take hq))
  · exact hsorted.2.sublist (List.take_sublist _ _)
  · intro q hq hqn r hr
    have hq' : q ∈ sort_by_count_desc (word_frequency (filtered_words stop_words words)) :=
      hperm.symm.subset hq
    have hsplit := List.take_append_drop 10
      (sort_by_count_desc (word_frequency (filtered_words stop_words words)))
    have hpair := hsorted.1
    rw [show (word_frequency (filtered_words stop_words words)).foldl
        (fun acc x => insort x acc) [] =
      sort_by_count_desc (word_frequency (filtered_words stop_words words)) from rfl,
      ← hsplit] at hpair
    rcases List.pairwise_append.mp hpair with ⟨_, _, hcross⟩
    rw [← hsplit] at hq'
    rcases List.mem_append.mp hq' with hq' | hq'
    · exact absurd hq' hqn
    · exact hcross r hr q hq'

/-- Witness for `relevant_keywords_spec` on a concrete token stream. -/
theorem relevant_keywords_spec_witness :
    (relevant_keywords ["the"] ["apple", "the", "pear", "apple"]).length ≤ 10 ∧
    (("apple", 2) : String × Nat).2 =
      (filtered_words ["the"] ["apple", "the", "pear", "apple"]).count "apple" := by
  refine ⟨(relevant_keywords_spec ["the"] ["apple", "the", "pear", "apple"]).1, ?_⟩
  exact (relevant_keywords_spec ["the"] ["apple", "the", "pear", "apple"]).2.2.1
    ("apple", 2) (by decide)
